import Mathlib

/-!
Shallow embedding of the UI mutation transport protocol core of this
repository:

* `packages/core/src/diffable_arguments.rs` — the dynamic-content
  formatter (`DiffableArguments`, `Entry`, the `Writable` digit writers,
  and the `PartialEq` implementations), and
* `packages/interpreter/src/bindings.rs` — the mutation encoder
  (`Interpreter`: identifier width negotiation, opcode stream encoding,
  batching/flushing).

Machine integers are embedded as `Nat`/`Int` with explicit bounds and
`% 2^w` wraparound where the source relies on fixed-width behaviour.
Rust `&str` values seen by the encoder are byte sequences (`List Nat`);
strings produced by the formatter are Lean `String`s.  Pointer identity
(used by the `PartialEq` impls through `std::ptr::eq`) is embedded as an
explicit address token carried next to the pointed-to content.
-/

/- ## Dynamic content formatter: data model -/

/-- A borrowed `&str` together with its address, so that the
`std::ptr::eq` short-circuit of `impl PartialEq for Entry` can be
expressed.  The program-level invariant "equal addresses point at equal
content" is taken as a hypothesis where a theorem needs it. -/
structure StrRef where
  addr : Nat
  val : String

/-- The `&'static [&'static str]` of interned static segments with its
address (slices are compared by `std::ptr::eq`, i.e. by identity). -/
structure StaticSegments where
  addr : Nat
  val : List String

/-- `Entry<'a>` from `diffable_arguments.rs`: one dynamic slot value. -/
inductive Entry where
  | u64 (u : Nat)
  | usize (u : Nat)
  | i64 (i : Int)
  | f64 (f : Float)
  | bool (b : Bool)
  | char (c : Char)
  | str (s : StrRef)

/-- `DiffableArguments<'a>`: interned static segments plus dynamic slots. -/
structure DiffableArguments where
  static_segments : StaticSegments
  dynamic_segments : List Entry

/- ## The digit writers (`write_unsized!` / `write_sized!`) -/

/-- The digit loop shared by `write_unsized!` and `write_sized!`: the
source writes `(n % 10) as u8 + b'0'` into the reserved suffix
back-to-front, dividing `n` by 10 until it reaches zero (a do-while, so
`n = 0` still writes one `'0'`).  Written front-of-list here, which is
the same final byte order. -/
def pushDigits (n : Nat) (acc : List Char) : List Char :=
  let d := Char.ofNat (n % 10 + 48)
  if _h : n / 10 = 0 then d :: acc
  else pushDigits (n / 10) (d :: acc)
termination_by n
decreasing_by omega

/-- `write_unsized!` (`impl Writable for u8..usize`): the decimal digits
of `n`, at least one digit. -/
def unsignedWrite (n : Nat) : List Char := pushDigits n []

/-- `write_sized!` (`impl Writable for i8..isize`), for the `w`-bit
signed type: `neg = self < 0`; the magnitude is `checked_abs`, which is
`None` exactly at the minimum representable value `-(2^(w-1))`, in which
case the fallback magnitude `MAX / 2 + 1 = (2^(w-1) - 1) / 2 + 1` is
used; a `'-'` is placed before the digits for every negative input. -/
def signedWrite (w : Nat) (i : Int) : List Char :=
  let n : Nat :=
    if i < 0 then
      if i = -((2 : Int) ^ (w - 1)) then (2 ^ (w - 1) - 1) / 2 + 1
      else i.natAbs
    else i.toNat
  if i < 0 then '-' :: pushDigits n [] else pushDigits n []

/-- `f.to_string()` for the `Entry::F64` arm (generic formatter
fallback); the straightforward concatenation uses the same display form,
so its exact digits are irrelevant to the claims. -/
def floatDisplay (f : Float) : String := toString f

/-- The `match dynamic_seg { ... }` arms inside
`DiffableArguments::to_bump_str`: what each entry appends to the
destination buffer. -/
def entryWrite : Entry → String
  | .u64 u => (unsignedWrite u).asString
  | .usize u => (unsignedWrite u).asString
  | .i64 i => (signedWrite 64 i).asString
  | .f64 f => floatDisplay f
  | .bool b => if b then "true" else "false"
  | .char c => String.singleton c
  | .str s => s.val

/-- `DiffableArguments::to_bump_str`: fold over
`static_segments.iter().zip(dynamic_segments.iter())` appending the
static segment then the rendered dynamic value, then append the last
static segment (`static_segments.last().unwrap()`; the `unwrap` panic on
an empty static array is modelled by the `""` default, unreachable under
the N+1/N shape assumed by every claim). -/
def DiffableArguments.to_bump_str (a : DiffableArguments) : String :=
  let s := (a.static_segments.val.zip a.dynamic_segments).foldl
    (fun acc p => acc ++ p.1 ++ entryWrite p.2) ""
  s ++ a.static_segments.val.getLastD ""

/-- `DiffableArguments::to_str`: the fast path returning the borrowed
string in the degenerate `["", ""]` / `[Entry::Str(s)]` case. -/
def DiffableArguments.to_str (a : DiffableArguments) : Option String :=
  match a.static_segments.val, a.dynamic_segments with
  | ["", ""], [.str s] => some s.val
  | _, _ => none

/- ## The `PartialEq` implementations -/

/-- `impl PartialEq for Entry`: variant-wise equality; the `Str` arm is
`std::ptr::eq(l0, r0) || l0 == r0` (identity short-circuit before
content comparison). -/
def entryEq : Entry → Entry → Bool
  | .u64 a, .u64 b => a == b
  | .usize a, .usize b => a == b
  | .i64 a, .i64 b => a == b
  | .f64 a, .f64 b => a == b
  | .bool a, .bool b => a == b
  | .char a, .char b => a == b
  | .str a, .str b => a.addr == b.addr || a.val == b.val
  | _, _ => false

/-- The body of the `for i in 0..self.dynamic_segments.len()` loop of
`impl PartialEq for DiffableArguments`, recursing over the list of loop
indices, with both `get_unchecked` indexings made total through
`List.getElem?`: the `none` result is the out-of-bounds branch that the
source leaves unchecked, and `some false` is the early `return false`. -/
def eqFrom (xs ys : List Entry) : List Nat → Option Bool
  | [] => some true
  | i :: rest =>
    match xs[i]?, ys[i]? with
    | some x, some y => if entryEq x y then eqFrom xs ys rest else some false
    | _, _ => none

/-- `impl PartialEq for DiffableArguments`: identity check on the
static-segment slice first, then the element loop over
`0..self.dynamic_segments.len()`. -/
def argsEq (a b : DiffableArguments) : Option Bool :=
  if a.static_segments.addr = b.static_segments.addr then
    eqFrom a.dynamic_segments b.dynamic_segments
      (List.range a.dynamic_segments.length)
  else some false

/- ## Spec-side formatter definitions (for the round-trip claims) -/

/-- The straightforward display form of one dynamic value, as the spec's
"straightforward interleaved string concatenation" uses it: standard
decimal for integers, `true`/`false`, the character itself, the borrowed
string itself, and the generic display form for floats. -/
def displayRender : Entry → String
  | .u64 u => Nat.repr u
  | .usize u => Nat.repr u
  | .i64 i => Int.repr i
  | .f64 f => floatDisplay f
  | .bool b => if b then "true" else "false"
  | .char c => String.singleton c
  | .str s => s.val

/-- The spec's interleaving: `segment0, value0, segment1, value1, ...,
segmentN` for N+1 segments and N values. -/
def interleavedConcat : List String → List String → String
  | [s], [] => s
  | s :: ss, v :: vs => s ++ v ++ interleavedConcat ss vs
  | _, _ => ""

/- ## Mutation encoder (`packages/interpreter/src/bindings.rs`) -/

/-- The `Op` opcode discriminants. -/
def Op.AppendChildren : Nat := 0
def Op.ReplaceWith : Nat := 1
def Op.InsertAfter : Nat := 2
def Op.InsertBefore : Nat := 3
def Op.Remove : Nat := 4
def Op.CreateTextNode : Nat := 5
def Op.CreateElement : Nat := 6
def Op.CreatePlaceholder : Nat := 7
def Op.NewEventListener : Nat := 8
def Op.RemoveEventListener : Nat := 9
def Op.SetText : Nat := 10
def Op.SetAttribute : Nat := 11
def Op.RemoveAttribute : Nat := 12
def Op.CloneNode : Nat := 13
def Op.CloneNodeChildren : Nat := 14
def Op.FirstChild : Nat := 15
def Op.NextSibling : Nat := 16
def Op.ParentNode : Nat := 17
def Op.StoreWithId : Nat := 18
def Op.SetLastNode : Nat := 19
def Op.SetIdSize : Nat := 20
def Op.Stop : Nat := 21

/-- The encoder state: the output byte buffer `msg: Vec<u8>` and the
negotiated identifier width `id_size: u8`.  The `js_interpreter` handle
(the external execution engine) carries no encoder-visible state and is
omitted; `flush` returns the frame it hands across the boundary
instead of calling `Work`. -/
structure Interpreter where
  msg : List Nat
  id_size : Nat
deriving DecidableEq

/-- `Interpreter::new`: empty buffer, identifier width 1. -/
def Interpreter.new : Interpreter := { msg := [], id_size := 1 }

def Interpreter.push (s : Interpreter) (b : Nat) : Interpreter :=
  { s with msg := s.msg ++ [b] }

def Interpreter.extend (s : Interpreter) (bs : List Nat) : Interpreter :=
  { s with msg := s.msg ++ bs }

/-- Byte `k` of the little-endian representation (`u64::to_le_bytes`). -/
def leByte (id k : Nat) : Nat := id / 256 ^ k % 256

/-- `id.to_le_bytes()`: the 8 little-endian bytes of a `u64`. -/
def toLeBytes8 (id : Nat) : List Nat := (List.range 8).map (leByte id)

/-- `(n as u16).to_le_bytes()`. -/
def u16le (n : Nat) : List Nat := [n % 65536 % 256, n % 65536 / 256 % 256]

/-- `(n as u32).to_le_bytes()`. -/
def u32le (n : Nat) : List Nat :=
  [n % 2 ^ 32 % 256, n % 2 ^ 32 / 256 % 256, n % 2 ^ 32 / 256 ^ 2 % 256,
    n % 2 ^ 32 / 256 ^ 3 % 256]

/-- `Iterator::position`: index of the first element satisfying `p`. -/
def listPosition (p : Nat → Bool) : List Nat → Option Nat
  | [] => none
  | a :: l => if p a then some 0 else (listPosition p l).map (· + 1)

/-- `check_id`'s `first_contentful_byte`: position of the first nonzero
byte of `id.to_le_bytes()` scanned from the most significant end,
defaulting to 8 when `id = 0` (`unwrap_or(8)`). -/
def first_contentful_byte (id : Nat) : Nat :=
  (listPosition (fun b => b != 0) (toLeBytes8 id).reverse).getD 8

/-- `check_id`'s `byte_size = (8 - first_contentful_byte) as u8`: the
number of trailing significant bytes of `id` (0 for `id = 0`). -/
def byteSizeOf (id : Nat) : Nat := 8 - first_contentful_byte id

/-- `Interpreter::set_byte_size`: record the new width and append the
width-upgrade control code `[SetIdSize, byte_size]`. -/
def Interpreter.set_byte_size (s : Interpreter) (b : Nat) : Interpreter :=
  { msg := s.msg ++ [Op.SetIdSize, b], id_size := b }

/-- `Interpreter::check_id`: upgrade the width iff this identifier needs
more bytes than are currently negotiated. -/
def Interpreter.check_id (s : Interpreter) (id : Nat) : Interpreter :=
  if byteSizeOf id > s.id_size then s.set_byte_size (byteSizeOf id) else s

/-- `Interpreter::encode_id`: append `id.to_le_bytes()[..id_size]`. -/
def Interpreter.encode_id (s : Interpreter) (id : Nat) : Interpreter :=
  s.extend ((toLeBytes8 id).take s.id_size)

/-- `Interpreter::encode_maybe_id`: present/absent flag byte, then the
width-encoded identifier when present. -/
def Interpreter.encode_maybe_id (s : Interpreter) (id : Option Nat) : Interpreter :=
  match id with
  | some id => (s.push 1).encode_id id
  | none => s.push 0

/-- `Interpreter::encode_str`: 2-byte little-endian length prefix
(`string.len() as u16`, silently wrapped modulo 2^16), then all of the
string's bytes. -/
def Interpreter.encode_str (s : Interpreter) (str : List Nat) : Interpreter :=
  (s.extend (u16le str.length)).extend str

/-- The `if let Some(ns) = ns { push 1; encode_str(ns) } else { push 0 }`
block shared by `SetAttribute` and `RemoveAttribute`. -/
def Interpreter.encode_maybe_ns (s : Interpreter) (ns : Option (List Nat)) : Interpreter :=
  match ns with
  | some ns => (s.push 1).encode_str ns
  | none => s.push 0

/-- `check_id` on an optional root (`if let Some(r) = root { self.check_id(r) }`). -/
def Interpreter.check_maybe_id (s : Interpreter) (root : Option Nat) : Interpreter :=
  match root with
  | some r => s.check_id r
  | none => s

def Interpreter.AppendChildren (s : Interpreter) (root : Option Nat)
    (children : List Nat) : Interpreter :=
  let s := s.check_maybe_id root
  let s := children.foldl (fun s c => s.check_id c) s
  let s := s.push Op.AppendChildren
  let s := s.encode_maybe_id root
  let s := s.extend (u32le children.length)
  children.foldl (fun s c => s.encode_id c) s

def Interpreter.ReplaceWith (s : Interpreter) (root : Option Nat)
    (nodes : List Nat) : Interpreter :=
  let s := s.check_maybe_id root
  let s := nodes.foldl (fun s c => s.check_id c) s
  let s := s.push Op.ReplaceWith
  let s := s.encode_maybe_id root
  let s := s.extend (u32le nodes.length)
  nodes.foldl (fun s c => s.encode_id c) s

def Interpreter.InsertAfter (s : Interpreter) (root : Option Nat)
    (nodes : List Nat) : Interpreter :=
  let s := s.check_maybe_id root
  let s := nodes.foldl (fun s c => s.check_id c) s
  let s := s.push Op.InsertAfter
  let s := s.encode_maybe_id root
  let s := s.extend (u32le nodes.length)
  nodes.foldl (fun s c => s.encode_id c) s

def Interpreter.InsertBefore (s : Interpreter) (root : Option Nat)
    (nodes : List Nat) : Interpreter :=
  let s := s.check_maybe_id root
  let s := nodes.foldl (fun s c => s.check_id c) s
  let s := s.push Op.InsertBefore
  let s := s.encode_maybe_id root
  let s := s.extend (u32le nodes.length)
  nodes.foldl (fun s c => s.encode_id c) s

def Interpreter.Remove (s : Interpreter) (root : Option Nat) : Interpreter :=
  let s := s.check_maybe_id root
  let s := s.push Op.Remove
  s.encode_maybe_id root

def Interpreter.CreateTextNode (s : Interpreter) (text : List Nat)
    (root : Option Nat) : Interpreter :=
  let s := s.check_maybe_id root
  let s := s.push Op.CreateTextNode
  let s := s.encode_maybe_id root
  s.encode_str text

def Interpreter.CreateElement (s : Interpreter) (tag : List Nat)
    (root : Option Nat) (children : Nat) : Interpreter :=
  let s := s.check_maybe_id root
  let s := s.push Op.CreateElement
  let s := s.encode_maybe_id root
  let s := s.encode_str tag
  let s := s.push 0
  s.extend (u32le children)

def Interpreter.CreateElementNs (s : Interpreter) (tag : List Nat)
    (root : Option Nat) (ns : List Nat) (children : Nat) : Interpreter :=
  let s := s.check_maybe_id root
  let s := s.push Op.CreateElement
  let s := s.encode_maybe_id root
  let s := s.encode_str tag
  let s := s.push 1
  let s := s.encode_str ns
  s.extend (u32le children)

def Interpreter.CreatePlaceholder (s : Interpreter) (root : Option Nat) : Interpreter :=
  let s := s.check_maybe_id root
  let s := s.push Op.CreatePlaceholder
  s.encode_maybe_id root

def Interpreter.NewEventListener (s : Interpreter) (name : List Nat)
    (root : Option Nat) (bubbles : Bool) : Interpreter :=
  let s := s.check_maybe_id root
  let s := s.push Op.NewEventListener
  let s := s.encode_maybe_id root
  let s := s.encode_str name
  s.push (if bubbles then 1 else 0)

def Interpreter.RemoveEventListener (s : Interpreter) (root : Option Nat)
    (name : List Nat) (bubbles : Bool) : Interpreter :=
  let s := s.check_maybe_id root
  let s := s.push Op.RemoveEventListener
  let s := s.encode_maybe_id root
  let s := s.encode_str name
  s.push (if bubbles then 1 else 0)

def Interpreter.SetText (s : Interpreter) (root : Option Nat)
    (text : List Nat) : Interpreter :=
  let s := s.check_maybe_id root
  let s := s.push Op.SetText
  let s := s.encode_maybe_id root
  s.encode_str text

def Interpreter.SetAttribute (s : Interpreter) (root : Option Nat)
    (field : List Nat) (value : List Nat) (ns : Option (List Nat)) : Interpreter :=
  let s := s.check_maybe_id root
  let s := s.push Op.SetAttribute
  let s := s.encode_maybe_id root
  let s := s.encode_str field
  let s := s.encode_maybe_ns ns
  s.encode_str value

def Interpreter.RemoveAttribute (s : Interpreter) (root : Option Nat)
    (field : List Nat) (ns : Option (List Nat)) : Interpreter :=
  let s := s.check_maybe_id root
  let s := s.push Op.RemoveAttribute
  let s := s.encode_maybe_id root
  let s := s.encode_str field
  s.encode_maybe_ns ns

/-- `Interpreter::CloneNode`: note that only `root` passes through
`check_id`; `new_id` is appended as the full 8-byte `to_le_bytes`
(`extend_from_slice(&new_id.to_le_bytes())`), not width-encoded. -/
def Interpreter.CloneNode (s : Interpreter) (root : Option Nat)
    (new_id : Nat) : Interpreter :=
  let s := s.check_maybe_id root
  let s := s.push Op.CloneNode
  let s := s.encode_maybe_id root
  s.extend (toLeBytes8 new_id)

def Interpreter.CloneNodeChildren (s : Interpreter) (root : Option Nat)
    (new_ids : List Nat) : Interpreter :=
  let s := s.check_maybe_id root
  let s := new_ids.foldl (fun s c => s.check_id c) s
  let s := s.push Op.CloneNodeChildren
  let s := s.encode_maybe_id root
  new_ids.foldl (fun s c => s.encode_maybe_id (some c)) s

def Interpreter.FirstChild (s : Interpreter) : Interpreter :=
  s.push Op.FirstChild

def Interpreter.NextSibling (s : Interpreter) : Interpreter :=
  s.push Op.NextSibling

def Interpreter.ParentNode (s : Interpreter) : Interpreter :=
  s.push Op.ParentNode

def Interpreter.StoreWithId (s : Interpreter) (id : Nat) : Interpreter :=
  let s := s.check_id id
  let s := s.push Op.StoreWithId
  s.encode_maybe_id (some id)

def Interpreter.SetLastNode (s : Interpreter) (id : Nat) : Interpreter :=
  let s := s.check_id id
  let s := s.push Op.SetLastNode
  s.encode_maybe_id (some id)

/-- `Interpreter::should_flush`: `self.msg.len() > 1024`. -/
def Interpreter.should_flush (s : Interpreter) : Bool :=
  decide (s.msg.length > 1024)

/-- `Interpreter::flush`: append the `Stop` code, hand the buffer across
the execution boundary (returned here as the first component), then
clear the buffer; `id_size` is untouched. -/
def Interpreter.flush (s : Interpreter) : List Nat × Interpreter :=
  (s.msg ++ [Op.Stop], { s with msg := [] })
/-- `check_id` folded over a sequence of identifiers. -/
def processIds (s : Interpreter) (ids : List Nat) : Interpreter :=
  ids.foldl Interpreter.check_id s
/-- One call to an encoder operation, for quantifying over the
operation set. -/
inductive EncoderCall where
  | appendChildren (root : Option Nat) (children : List Nat)
  | replaceWith (root : Option Nat) (nodes : List Nat)
  | insertAfter (root : Option Nat) (nodes : List Nat)
  | insertBefore (root : Option Nat) (nodes : List Nat)
  | remove (root : Option Nat)
  | createTextNode (text : List Nat) (root : Option Nat)
  | createElement (tag : List Nat) (root : Option Nat) (children : Nat)
  | createElementNs (tag : List Nat) (root : Option Nat) (ns : List Nat) (children : Nat)
  | createPlaceholder (root : Option Nat)
  | newEventListener (name : List Nat) (root : Option Nat) (bubbles : Bool)
  | removeEventListener (root : Option Nat) (name : List Nat) (bubbles : Bool)
  | setText (root : Option Nat) (text : List Nat)
  | setAttribute (root : Option Nat) (field : List Nat) (value : List Nat) (ns : Option (List Nat))
  | removeAttribute (root : Option Nat) (field : List Nat) (ns : Option (List Nat))
  | cloneNode (root : Option Nat) (new_id : Nat)
  | cloneNodeChildren (root : Option Nat) (new_ids : List Nat)
  | firstChild
  | nextSibling
  | parentNode
  | storeWithId (id : Nat)
  | setLastNode (id : Nat)

/-- Dispatch one call to the corresponding `Interpreter` method. -/
def runCall : EncoderCall → Interpreter → Interpreter
  | .appendChildren root children, s => s.AppendChildren root children
  | .replaceWith root nodes, s => s.ReplaceWith root nodes
  | .insertAfter root nodes, s => s.InsertAfter root nodes
  | .insertBefore root nodes, s => s.InsertBefore root nodes
  | .remove root, s => s.Remove root
  | .createTextNode text root, s => s.CreateTextNode text root
  | .createElement tag root children, s => s.CreateElement tag root children
  | .createElementNs tag root ns children, s => s.CreateElementNs tag root ns children
  | .createPlaceholder root, s => s.CreatePlaceholder root
  | .newEventListener name root bubbles, s => s.NewEventListener name root bubbles
  | .removeEventListener root name bubbles, s => s.RemoveEventListener root name bubbles
  | .setText root text, s => s.SetText root text
  | .setAttribute root field value ns, s => s.SetAttribute root field value ns
  | .removeAttribute root field ns, s => s.RemoveAttribute root field ns
  | .cloneNode root new_id, s => s.CloneNode root new_id
  | .cloneNodeChildren root new_ids, s => s.CloneNodeChildren root new_ids
  | .firstChild, s => s.FirstChild
  | .nextSibling, s => s.NextSibling
  | .parentNode, s => s.ParentNode
  | .storeWithId id, s => s.StoreWithId id
  | .setLastNode id, s => s.SetLastNode id

/-- The identifiers an operation passes through `check_id`, in order.
`cloneNode`'s `new_id` is deliberately absent: the source never checks it. -/
def checkedIds : EncoderCall → List Nat
  | .appendChildren root children => root.toList ++ children
  | .replaceWith root nodes => root.toList ++ nodes
  | .insertAfter root nodes => root.toList ++ nodes
  | .insertBefore root nodes => root.toList ++ nodes
  | .remove root => root.toList
  | .createTextNode _ root => root.toList
  | .createElement _ root _ => root.toList
  | .createElementNs _ root _ _ => root.toList
  | .createPlaceholder root => root.toList
  | .newEventListener _ root _ => root.toList
  | .removeEventListener root _ _ => root.toList
  | .setText root _ => root.toList
  | .setAttribute root _ _ _ => root.toList
  | .removeAttribute root _ _ => root.toList
  | .cloneNode root _ => root.toList
  | .cloneNodeChildren root new_ids => root.toList ++ new_ids
  | .firstChild => []
  | .nextSibling => []
  | .parentNode => []
  | .storeWithId id => [id]
  | .setLastNode id => [id]

/- ## Helper lemmas -/

lemma digitChar_eq_ofNat : ∀ m, m < 10 → Nat.digitChar m = Char.ofNat (m + 48) := by
  decide

lemma pushDigits_step (n : Nat) (acc : List Char) :
    pushDigits n acc =
      if n / 10 = 0 then Char.ofNat (n % 10 + 48) :: acc
      else pushDigits (n / 10) (Char.ofNat (n % 10 + 48) :: acc) := by
  rw [pushDigits, dite_eq_ite]

lemma toDigitsCore_eq_pushDigits :
    ∀ (fuel n : Nat) (acc : List Char), n < fuel →
      Nat.toDigitsCore 10 fuel n acc = pushDigits n acc := by
  intro fuel
  induction fuel with
  | zero => intro n acc h; omega
  | succ f ih =>
    intro n acc h
    rw [pushDigits_step]
    unfold Nat.toDigitsCore
    rw [digitChar_eq_ofNat (n % 10) (by omega)]
    by_cases h0 : n / 10 = 0
    · simp [h0]
    · simp only [h0, if_false]
      exact ih (n / 10) _ (by omega)

lemma unsignedWrite_eq_repr (n : Nat) : (unsignedWrite n).asString = Nat.repr n := by
  unfold unsignedWrite Nat.repr Nat.toDigits
  rw [toDigitsCore_eq_pushDigits (n + 1) n [] (Nat.lt_succ_self n)]

lemma pushDigits_asString (n : Nat) : (pushDigits n []).asString = Nat.repr n := by
  unfold Nat.repr Nat.toDigits
  rw [toDigitsCore_eq_pushDigits (n + 1) n [] (Nat.lt_succ_self n)]

lemma signedWrite_nonneg (w : Nat) (i : Int) (h : 0 ≤ i) :
    (signedWrite w i).asString = Nat.repr i.toNat := by
  unfold signedWrite
  rw [if_neg (by omega), if_neg (by omega)]
  exact pushDigits_asString i.toNat

lemma asString_cons (c : Char) (l : List Char) :
    (c :: l).asString = String.singleton c ++ l.asString := rfl

lemma signedWrite_neg (w : Nat) (i : Int) (h : i < 0) (hmin : i ≠ -((2 : Int) ^ (w - 1))) :
    (signedWrite w i).asString = "-" ++ Nat.repr i.natAbs := by
  unfold signedWrite
  rw [if_pos h, if_pos h, if_neg hmin, asString_cons, pushDigits_asString i.natAbs]
  rfl

lemma signedWrite_min (w : Nat) (i : Int) (h : i < 0) (hmin : i = -((2 : Int) ^ (w - 1))) :
    (signedWrite w i).asString = "-" ++ Nat.repr ((2 ^ (w - 1) - 1) / 2 + 1) := by
  unfold signedWrite
  rw [if_pos h, if_pos h, if_pos hmin, asString_cons, pushDigits_asString]
  rfl

lemma int_repr_neg (i : Int) (h : i < 0) : Int.repr i = "-" ++ Nat.repr i.natAbs := by
  match i with
  | .negSucc m => rfl
  | .ofNat m => exact absurd h (by exact of_decide_eq_false rfl)

lemma int_repr_nonneg (i : Int) (h : 0 ≤ i) : Int.repr i = Nat.repr i.toNat := by
  match i with
  | .ofNat m => rfl
  | .negSucc m => exact absurd h (Int.negSucc_lt_zero m).not_le

lemma entryWrite_eq_displayRender (e : Entry)
    (h : ∀ i : Int, e = .i64 i → i ≠ -((2 : Int) ^ (63 : Nat))) :
    entryWrite e = displayRender e := by
  cases e with
  | u64 u => exact pushDigits_asString u
  | usize u => exact pushDigits_asString u
  | i64 i =>
    show (signedWrite 64 i).asString = Int.repr i
    by_cases hneg : i < 0
    · rw [signedWrite_neg 64 i hneg (by simpa using h i rfl), int_repr_neg i hneg]
    · rw [signedWrite_nonneg 64 i (by omega), int_repr_nonneg i (by omega)]
  | f64 f => rfl
  | bool b => rfl
  | char c => rfl
  | str s => rfl

lemma getLastD_irrel (l : List String) (h : l ≠ []) (d₁ d₂ : String) :
    l.getLastD d₁ = l.getLastD d₂ := by
  cases l with
  | nil => exact absurd rfl h
  | cons a l => rw [List.getLastD_cons, List.getLastD_cons]

lemma to_bump_fold (ds : List Entry) (ss : List String) (acc : String)
    (hlen : ss.length = ds.length + 1)
    (hval : ∀ e ∈ ds, entryWrite e = displayRender e) :
    ((ss.zip ds).foldl (fun acc p => acc ++ p.1 ++ entryWrite p.2) acc)
        ++ ss.getLastD "" =
      acc ++ interleavedConcat ss (ds.map displayRender) := by
  induction ds generalizing ss acc with
  | nil =>
    match ss, hlen with
    | [s], _ => simp [interleavedConcat]
  | cons d ds ih =>
    match ss, hlen with
    | s :: ss', hlen =>
      have hne : ss' ≠ [] := by
        cases ss' with
        | nil => simp at hlen
        | cons _ _ => simp
      have : (s :: ss').getLastD "" = ss'.getLastD "" := by
        rw [List.getLastD_cons]
        exact getLastD_irrel ss' hne s ""
      rw [List.zip_cons_cons, List.foldl_cons, this]
      rw [ih ss' (acc ++ s ++ entryWrite d) (by simpa using hlen)
        (fun e he => hval e (List.mem_cons_of_mem d he))]
      rw [hval d (List.mem_cons_self d ds)]
      show _ = acc ++ interleavedConcat (s :: ss') (displayRender d :: ds.map displayRender)
      have hc : interleavedConcat (s :: ss') (displayRender d :: ds.map displayRender) =
          s ++ displayRender d ++ interleavedConcat ss' (ds.map displayRender) := by
        cases ss' with
        | nil => exact absurd rfl hne
        | cons a l => rfl
      rw [hc, String.append_assoc, String.append_assoc, String.append_assoc]

lemma to_bump_str_eq_interleaved (static : StaticSegments) (dyn : List Entry)
    (hlen : static.val.length = dyn.length + 1)
    (hmin : ∀ i : Int, Entry.i64 i ∈ dyn → i ≠ -((2 : Int) ^ (63 : Nat))) :
    DiffableArguments.to_bump_str ⟨static, dyn⟩ =
      interleavedConcat static.val (dyn.map displayRender) := by
  have h := to_bump_fold dyn static.val "" hlen
    (fun e he => entryWrite_eq_displayRender e (fun i hi => hmin i (hi ▸ he)))
  rw [String.empty_append] at h
  exact h

lemma listPosition_spec (p : Nat → Bool) (l : List Nat) :
    ∀ j, j < (listPosition p l).getD l.length → ∃ x, l[j]? = some x ∧ p x = false := by
  induction l with
  | nil => intro j h; simp [listPosition] at h
  | cons a l ih =>
    intro j h
    by_cases ha : p a
    · simp [listPosition, ha] at h
    · have hg : (listPosition p (a :: l)).getD (a :: l).length =
          (listPosition p l).getD l.length + 1 := by
        simp only [listPosition, ha, if_false, List.length_cons]
        cases listPosition p l <;> rfl
      rw [hg] at h
      match j with
      | 0 => exact ⟨a, by simp, by simp [ha]⟩
      | j + 1 =>
        obtain ⟨x, hx, hpx⟩ := ih j (by omega)
        exact ⟨x, by simpa using hx, hpx⟩

lemma listPosition_ge (p : Nat → Bool) (l : List Nat) (m : Nat)
    (hm : ∀ j, j < m → ∃ x, l[j]? = some x ∧ p x = false) :
    m ≤ (listPosition p l).getD l.length := by
  induction l generalizing m with
  | nil =>
    match m with
    | 0 => exact Nat.zero_le _
    | m + 1 =>
      obtain ⟨x, hx, _⟩ := hm 0 (Nat.succ_pos m)
      simp at hx
  | cons a l ih =>
    match m with
    | 0 => exact Nat.zero_le _
    | m + 1 =>
      by_cases ha : p a
      · obtain ⟨x, hx, hpx⟩ := hm 0 (Nat.succ_pos m)
        simp only [List.getElem?_cons_zero, Option.some.injEq] at hx
        subst hx
        rw [ha] at hpx
        cases hpx
      · have hg : (listPosition p (a :: l)).getD (a :: l).length =
            (listPosition p l).getD l.length + 1 := by
          simp only [listPosition, ha, if_false, List.length_cons]
          cases listPosition p l <;> rfl
        rw [hg]
        have := ih m (fun j hj => by simpa using hm (j + 1) (by omega))
        omega

lemma toLeBytes8_rev_get (id j : Nat) (h : j < 8) :
    ((toLeBytes8 id).reverse)[j]? = some (leByte id (7 - j)) := by
  have hlen : (toLeBytes8 id).length = 8 := by simp [toLeBytes8]
  rw [List.getElem?_reverse' j (7 - j) (by omega)]
  simp [toLeBytes8, List.getElem?_map, List.getElem?_range (show 7 - j < 8 by omega)]

lemma high_bytes_zero (id : Nat) : ∀ k, byteSizeOf id ≤ k → k < 8 → leByte id k = 0 := by
  intro k h1 h2
  have hlen : ((toLeBytes8 id).reverse).length = 8 := by simp [toLeBytes8]
  have hfcb : 7 - k < (listPosition (fun b => b != 0) ((toLeBytes8 id).reverse)).getD 8 := by
    unfold byteSizeOf first_contentful_byte at h1
    omega
  rw [← hlen] at hfcb
  obtain ⟨x, hx, hpx⟩ := listPosition_spec _ _ (7 - k) hfcb
  rw [toLeBytes8_rev_get id (7 - k) (by omega)] at hx
  have hxk : x = leByte id k := by
    have : 7 - (7 - k) = k := by omega
    rw [← this]
    exact (Option.some.inj hx).symm
  subst hxk
  simpa using hpx

lemma lt_pow_of_bytes_zero (id : Nat) :
    ∀ (d m : Nat), m + d = 8 → id < 256 ^ 8 →
      (∀ k, m ≤ k → k < 8 → leByte id k = 0) → id < 256 ^ m := by
  intro d
  induction d with
  | zero =>
    intro m hm h64 _
    have hm8 : m = 8 := by omega
    rw [hm8]
    exact h64
  | succ d ih =>
    intro m hm h64 hz
    have hm1 : id < 256 ^ (m + 1) :=
      ih (m + 1) (by omega) h64 (fun k hk1 hk2 => hz k (by omega) hk2)
    have hdiv : id / 256 ^ m < 256 := by
      rw [Nat.div_lt_iff_lt_mul (Nat.pos_pow_of_pos m (by norm_num))]
      calc id < 256 ^ (m + 1) := hm1
        _ = 256 * 256 ^ m := by ring
    have hb : leByte id m = 0 := hz m (Nat.le_refl m) (by omega)
    unfold leByte at hb
    rw [Nat.mod_eq_of_lt hdiv] at hb
    have := (Nat.div_eq_zero_iff (Nat.pos_pow_of_pos m (by norm_num))).mp hb
    exact this

lemma lt_pow_byteSize (id : Nat) (h64 : id < 2 ^ 64) : id < 256 ^ byteSizeOf id := by
  have hb8 : byteSizeOf id ≤ 8 := Nat.sub_le 8 _
  exact lt_pow_of_bytes_zero id (8 - byteSizeOf id) (byteSizeOf id) (by omega)
    (by calc id < 2 ^ 64 := h64
          _ = 256 ^ 8 := by norm_num)
    (high_bytes_zero id)

lemma byteSize_le_of_lt (id k : Nat) (hk : k ≤ 8) (h : id < 256 ^ k) :
    byteSizeOf id ≤ k := by
  have hlen : ((toLeBytes8 id).reverse).length = 8 := by simp [toLeBytes8]
  have hfcb : 8 - k ≤ first_contentful_byte id := by
    unfold first_contentful_byte
    rw [← hlen]
    apply listPosition_ge
    intro j hj
    refine ⟨leByte id (7 - j), toLeBytes8_rev_get id j (by omega), ?_⟩
    have hz : leByte id (7 - j) = 0 := by
      unfold leByte
      have hle : 256 ^ k ≤ 256 ^ (7 - j) := Nat.pow_le_pow_right (by norm_num) (by omega)
      have : id / 256 ^ (7 - j) = 0 :=
        (Nat.div_eq_zero_iff (Nat.pos_pow_of_pos _ (by norm_num))).mpr (by omega)
      simp [this]
    simp [hz]
  unfold byteSizeOf
  omega

lemma byteSize_gt (id k : Nat) (h64 : id < 2 ^ 64) (h : 256 ^ k ≤ id) :
    k < byteSizeOf id := by
  by_contra hle
  push_neg at hle
  have h1 := lt_pow_byteSize id h64
  have h2 : id < 256 ^ k :=
    lt_of_lt_of_le h1 (Nat.pow_le_pow_right (by norm_num) hle)
  omega

/-- `check_id` folded over a sequence of identifiers. -/

lemma check_id_id_size (s : Interpreter) (id : Nat) :
    (s.check_id id).id_size = max s.id_size (byteSizeOf id) := by
  unfold Interpreter.check_id Interpreter.set_byte_size
  split
  · next h => simp; omega
  · next h => simp; omega

lemma check_id_eq_self (s : Interpreter) (id : Nat) (h : byteSizeOf id ≤ s.id_size) :
    s.check_id id = s := by
  unfold Interpreter.check_id
  rw [if_neg (by omega)]

lemma id_size_le_check_id (s : Interpreter) (id : Nat) :
    s.id_size ≤ (s.check_id id).id_size := by
  rw [check_id_id_size]; omega

lemma id_size_le_processIds (s : Interpreter) (ids : List Nat) :
    s.id_size ≤ (processIds s ids).id_size := by
  induction ids generalizing s with
  | nil => exact Nat.le_refl _
  | cons a ids ih =>
    calc s.id_size ≤ (s.check_id a).id_size := id_size_le_check_id s a
      _ ≤ (processIds (s.check_id a) ids).id_size := ih _
      _ = (processIds s (a :: ids)).id_size := rfl

lemma byteSize_le_processIds (s : Interpreter) (ids : List Nat) (id : Nat)
    (h : id ∈ ids) : byteSizeOf id ≤ (processIds s ids).id_size := by
  induction ids generalizing s with
  | nil => cases h
  | cons a ids ih =>
    cases h with
    | head =>
      calc byteSizeOf id ≤ (s.check_id id).id_size := by rw [check_id_id_size]; omega
        _ ≤ (processIds (s.check_id id) ids).id_size := id_size_le_processIds _ _
    | tail _ hmem => exact ih (s.check_id a) hmem

lemma processIds_append (s : Interpreter) (l₁ l₂ : List Nat) :
    processIds s (l₁ ++ l₂) = processIds (processIds s l₁) l₂ := by
  unfold processIds
  rw [List.foldl_append]

lemma take_two_toLeBytes8 (id : Nat) :
    (toLeBytes8 id).take 2 = [leByte id 0, leByte id 1] := rfl

lemma id_size_push (s : Interpreter) (b : Nat) : (s.push b).id_size = s.id_size := rfl

lemma id_size_extend (s : Interpreter) (bs : List Nat) :
    (s.extend bs).id_size = s.id_size := rfl

lemma id_size_encode_id (s : Interpreter) (id : Nat) :
    (s.encode_id id).id_size = s.id_size := rfl

lemma id_size_encode_maybe_id (s : Interpreter) (id : Option Nat) :
    (s.encode_maybe_id id).id_size = s.id_size := by
  cases id <;> rfl

lemma id_size_encode_str (s : Interpreter) (str : List Nat) :
    (s.encode_str str).id_size = s.id_size := rfl

lemma id_size_encode_maybe_ns (s : Interpreter) (ns : Option (List Nat)) :
    (s.encode_maybe_ns ns).id_size = s.id_size := by
  cases ns <;> rfl

lemma id_size_encodeIdFold (ids : List Nat) (s : Interpreter) :
    (ids.foldl (fun s c => s.encode_id c) s).id_size = s.id_size := by
  induction ids generalizing s with
  | nil => rfl
  | cons a ids ih => rw [List.foldl_cons, ih, id_size_encode_id]

lemma id_size_encodeMaybeFold (ids : List Nat) (s : Interpreter) :
    (ids.foldl (fun s c => s.encode_maybe_id (some c)) s).id_size = s.id_size := by
  induction ids generalizing s with
  | nil => rfl
  | cons a ids ih => rw [List.foldl_cons, ih, id_size_encode_maybe_id]

lemma check_maybe_id_eq (s : Interpreter) (root : Option Nat) :
    s.check_maybe_id root = processIds s root.toList := by
  cases root <;> rfl

lemma runCall_id_size (c : EncoderCall) (s : Interpreter) :
    (runCall c s).id_size = (processIds s (checkedIds c)).id_size := by
  cases c <;>
    simp [runCall, checkedIds, Interpreter.AppendChildren, Interpreter.ReplaceWith,
      Interpreter.InsertAfter, Interpreter.InsertBefore, Interpreter.Remove,
      Interpreter.CreateTextNode, Interpreter.CreateElement, Interpreter.CreateElementNs,
      Interpreter.CreatePlaceholder, Interpreter.NewEventListener,
      Interpreter.RemoveEventListener, Interpreter.SetText, Interpreter.SetAttribute,
      Interpreter.RemoveAttribute, Interpreter.CloneNode, Interpreter.CloneNodeChildren,
      Interpreter.FirstChild, Interpreter.NextSibling, Interpreter.ParentNode,
      Interpreter.StoreWithId, Interpreter.SetLastNode,
      id_size_push, id_size_extend, id_size_encode_id, id_size_encode_maybe_id,
      id_size_encode_str, id_size_encode_maybe_ns, id_size_encodeIdFold, id_size_encodeMaybeFold,
      check_maybe_id_eq, processIds_append, processIds]

lemma encode_str_msg (s : Interpreter) (str : List Nat) :
    (s.encode_str str).msg = s.msg ++ u16le str.length ++ str := by
  simp [Interpreter.encode_str, Interpreter.extend, List.append_assoc]

lemma eqFrom_ne_none (xs ys : List Entry) (L : List Nat)
    (hb : ∀ i ∈ L, i < xs.length ∧ i < ys.length) :
    eqFrom xs ys L ≠ none := by
  induction L with
  | nil => simp [eqFrom]
  | cons i L ih =>
    obtain ⟨h1, h2⟩ := hb i (List.mem_cons_self i L)
    have hx : xs[i]? = some (xs.get ⟨i, h1⟩) := List.getElem?_eq_getElem h1
    have hy : ys[i]? = some (ys.get ⟨i, h2⟩) := List.getElem?_eq_getElem h2
    simp only [eqFrom, hx, hy]
    split
    · exact ih (fun j hj => hb j (List.mem_cons_of_mem i hj))
    · simp

lemma eqFrom_some_true_iff (xs ys : List Entry) (L : List Nat)
    (hb : ∀ i ∈ L, i < xs.length ∧ i < ys.length) :
    (eqFrom xs ys L = some true ↔
      ∀ i ∈ L, entryEq (xs.getD i (.bool false)) (ys.getD i (.bool false)) = true) := by
  induction L with
  | nil => simp [eqFrom]
  | cons i L ih =>
    obtain ⟨h1, h2⟩ := hb i (List.mem_cons_self i L)
    have hx : xs[i]? = some (xs.get ⟨i, h1⟩) := List.getElem?_eq_getElem h1
    have hy : ys[i]? = some (ys.get ⟨i, h2⟩) := List.getElem?_eq_getElem h2
    have hgx : xs.getD i (.bool false) = xs.get ⟨i, h1⟩ := by
      simp [List.getD, hx]
    have hgy : ys.getD i (.bool false) = ys.get ⟨i, h2⟩ := by
      simp [List.getD, hy]
    simp only [eqFrom, hx, hy]
    constructor
    · intro h j hj
      rcases List.mem_cons.mp hj with hj | hj
      · subst hj
        rw [hgx, hgy]
        by_contra hne
        rw [if_neg (by simpa using hne)] at h
        cases h
      · have hE : entryEq (xs.get ⟨i, h1⟩) (ys.get ⟨i, h2⟩) = true := by
          by_contra hne
          rw [if_neg (by simpa using hne)] at h
          cases h
        rw [if_pos hE] at h
        exact (ih (fun j hj => hb j (List.mem_cons_of_mem i hj))).mp h j hj
    · intro h
      have hE : entryEq (xs.get ⟨i, h1⟩) (ys.get ⟨i, h2⟩) = true := by
        rw [← hgx, ← hgy]
        exact h i (List.mem_cons_self i L)
      rw [if_pos hE]
      exact (ih (fun j hj => hb j (List.mem_cons_of_mem i hj))).mpr
        (fun j hj => h j (List.mem_cons_of_mem i hj))

/- ## Claim theorems -/

/-- Claim C1 (amended): for every static-segment array of N+1 strings and
matching array of N dynamic values of the supported primitive types,
`to_bump_str` equals the straightforward interleaved concatenation
`segment0, value0, segment1, value1, ..., segmentN`, provided no `i64`
value is the minimum representable `-(2^63)` (where the checked
negation's fallback magnitude diverges, see the counterexample); in
particular formatting `static=["hello ", ", ", " welcome"]` with
`dynamic=["world", 42]` yields exactly `"hello world, 42 welcome"`. -/
theorem c1_round_trip (static : StaticSegments) (dyn : List Entry)
    (hlen : static.val.length = dyn.length + 1)
    (hmin : ∀ i : Int, Entry.i64 i ∈ dyn → i ≠ -((2 : Int) ^ (63 : Nat))) :
    DiffableArguments.to_bump_str ⟨static, dyn⟩ =
      interleavedConcat static.val (dyn.map displayRender) ∧
    DiffableArguments.to_bump_str
        ⟨⟨0, ["hello ", ", ", " welcome"]⟩, [.str ⟨1, "world"⟩, .i64 42]⟩ =
      "hello world, 42 welcome" := by
  refine ⟨to_bump_str_eq_interleaved static dyn hlen hmin, ?_⟩
  rw [to_bump_str_eq_interleaved ⟨0, ["hello ", ", ", " welcome"]⟩
    [.str ⟨1, "world"⟩, .i64 42] (by decide) ?_]
  · decide
  · intro i hi
    simp only [List.mem_cons, List.not_mem_nil, or_false] at hi
    rcases hi with hi | hi
    · exact absurd hi (by intro h; cases h)
    · cases hi; decide

/-- Witness for C1 at a concrete input. -/
theorem c1_round_trip_witness :
    DiffableArguments.to_bump_str ⟨⟨5, ["a", "-", "!"]⟩, [.u64 7, .char 'x']⟩ =
      interleavedConcat ["a", "-", "!"]
        ([Entry.u64 7, Entry.char 'x'].map displayRender) :=
  (c1_round_trip ⟨5, ["a", "-", "!"]⟩ [.u64 7, .char 'x'] (by decide)
    (by intro i hi; simp at hi)).1

/-- Counterexample to C1 as stated: at the supported-type value
`i64 = -(2^63)` the formatter emits the fallback magnitude
`i64::MAX / 2 + 1 = 2^62`, so the output is `"-4611686018427387904"`
while the straightforward concatenation of the decimal rendering is
`"-9223372036854775808"`. -/
theorem c1_counterexample :
    DiffableArguments.to_bump_str ⟨⟨0, ["", ""]⟩, [.i64 (-((2 : Int) ^ (63 : Nat)))]⟩ =
      "-4611686018427387904" ∧
    interleavedConcat ["", ""]
        ([Entry.i64 (-((2 : Int) ^ (63 : Nat)))].map displayRender) =
      "-9223372036854775808" ∧
    DiffableArguments.to_bump_str ⟨⟨0, ["", ""]⟩, [.i64 (-((2 : Int) ^ (63 : Nat)))]⟩ ≠
      interleavedConcat ["", ""]
        ([Entry.i64 (-((2 : Int) ^ (63 : Nat)))].map displayRender) := by
  have h1 : DiffableArguments.to_bump_str
      ⟨⟨0, ["", ""]⟩, [.i64 (-((2 : Int) ^ (63 : Nat)))]⟩ =
      ("" ++ "" ++ (signedWrite 64 (-((2 : Int) ^ (63 : Nat)))).asString) ++ "" := rfl
  have h2 : (signedWrite 64 (-((2 : Int) ^ (63 : Nat)))).asString =
      "-" ++ Nat.repr ((2 ^ (64 - 1) - 1) / 2 + 1) :=
    signedWrite_min 64 _ (by decide) (by norm_num)
  refine ⟨?_, ?_, ?_⟩
  · rw [h1, h2]; decide
  · decide
  · rw [h1, h2]; decide

/-- Claim C2: formatting the minimum representable signed 8-bit value
`-128` as a dynamic value (the `IntoEntry` impl for `i8` widens to
`Entry::I64(-128)`) produces exactly `"-128"`; no overflow occurs in the
magnitude computation because `-128` is not the 64-bit minimum, and a
leading minus sign is written before the digits for every negative
input. -/
theorem c2_min_signed_byte :
    DiffableArguments.to_bump_str ⟨⟨0, ["", ""]⟩, [.i64 (-128)]⟩ = "-128" ∧
    (-128 : Int) ≠ -((2 : Int) ^ (63 : Nat)) ∧
    ∀ i : Int, i < 0 → (signedWrite 64 i).head? = some '-' := by
  refine ⟨?_, by decide, ?_⟩
  · have h1 : DiffableArguments.to_bump_str ⟨⟨0, ["", ""]⟩, [.i64 (-128)]⟩ =
        ("" ++ "" ++ (signedWrite 64 (-128)).asString) ++ "" := rfl
    rw [h1, signedWrite_neg 64 (-128) (by decide) (by decide)]
    decide
  · intro i h
    unfold signedWrite
    rw [if_pos h]
    rfl

/-- Claim C3: for every sequence of identifiers fed to `check_id`
starting from a fresh `Interpreter`, the negotiated width `id_size` is
non-decreasing across the whole sequence, is always at least 1 byte
(even when identifier 0 is checked), and after each check is sufficient
to represent every identifier seen so far (`id < 256 ^ id_size`, i.e.
all higher bytes are zero). -/
theorem c3_width_monotone (ids : List Nat) (h64 : ∀ id ∈ ids, id < 2 ^ 64) :
    (∀ pre suf, ids = pre ++ suf →
      (processIds Interpreter.new pre).id_size ≤
        (processIds Interpreter.new ids).id_size) ∧
    (∀ pre suf, ids = pre ++ suf →
      1 ≤ (processIds Interpreter.new pre).id_size) ∧
    (∀ pre suf, ids = pre ++ suf → ∀ id ∈ pre,
      id < 256 ^ (processIds Interpreter.new pre).id_size) := by
  refine ⟨?_, ?_, ?_⟩
  · intro pre suf hsplit
    rw [hsplit, processIds_append]
    exact id_size_le_processIds _ _
  · intro pre suf hsplit
    exact id_size_le_processIds Interpreter.new pre
  · intro pre suf hsplit id hmem
    have hid64 : id < 2 ^ 64 := h64 id (by rw [hsplit]; exact List.mem_append_left suf hmem)
    calc id < 256 ^ byteSizeOf id := lt_pow_byteSize id hid64
      _ ≤ 256 ^ (processIds Interpreter.new pre).id_size :=
        Nat.pow_le_pow_right (by norm_num) (byteSize_le_processIds _ _ _ hmem)

/-- Witness for C3 at the concrete sequence `[0, 300, 70000]`. -/
theorem c3_width_monotone_witness :
    1 ≤ (processIds Interpreter.new [0, 300, 70000]).id_size ∧
    (300 : Nat) < 256 ^ (processIds Interpreter.new [0, 300]).id_size :=
  ⟨(c3_width_monotone [0, 300, 70000] (by decide)).2.1 [0, 300, 70000] [] (by simp),
   (c3_width_monotone [0, 300, 70000] (by decide)).2.2 [0, 300] [70000] rfl 300 (by decide)⟩

/-- Claim C4 (amended): from an encoder whose negotiated width is 1
byte, `CreateTextNode` with explicit id 300 appends exactly one
width-upgrade control code `[SetIdSize, 2]` immediately before the
create-text opcode byte, and afterwards every identifier passed through
the width-based identifier encoding occupies exactly 2 bytes — with no
further upgrade — until an identifier of more than 2 significant bytes
forces another upgrade.  (`CloneNode`'s `new_id` operand is exempt: the
counterexample shows it always occupies 8 raw bytes.) -/
theorem c4_upgrade_scenario :
    (∀ (s : Interpreter) (text : List Nat), s.id_size = 1 →
      s.CreateTextNode text (some 300) =
        { msg := s.msg ++ [Op.SetIdSize, 2, Op.CreateTextNode, 1, 44, 1] ++
            u16le text.length ++ text,
          id_size := 2 }) ∧
    (∀ (s : Interpreter) (id : Nat), s.id_size = 2 → id < 2 ^ 16 →
      s.check_id id = s ∧
      (s.encode_id id).msg = s.msg ++ [leByte id 0, leByte id 1]) ∧
    (∀ (s : Interpreter) (id : Nat), s.id_size = 2 → 2 ^ 16 ≤ id → id < 2 ^ 64 →
      s.check_id id = s.set_byte_size (byteSizeOf id) ∧ 2 < byteSizeOf id) := by
  refine ⟨?_, ?_, ?_⟩
  · intro s text h
    obtain ⟨msg, idsz⟩ := s
    simp only [Interpreter.id_size] at h
    subst h
    have hbs : byteSizeOf 300 = 2 := by decide
    simp [Interpreter.CreateTextNode, Interpreter.check_maybe_id, Interpreter.check_id,
      Interpreter.set_byte_size, Interpreter.push, Interpreter.extend,
      Interpreter.encode_maybe_id, Interpreter.encode_id, Interpreter.encode_str, hbs,
      show (toLeBytes8 300).take 2 = [44, 1] from by decide]
  · intro s id h2 hlt
    have hbs : byteSizeOf id ≤ 2 := byteSize_le_of_lt id 2 (by omega) (by norm_num at hlt ⊢; omega)
    refine ⟨check_id_eq_self s id (by omega), ?_⟩
    rw [Interpreter.encode_id, h2, take_two_toLeBytes8, Interpreter.extend]
  · intro s id h2 hge h64
    have hbs : 2 < byteSizeOf id := byteSize_gt id 2 h64 (by norm_num at hge ⊢; omega)
    refine ⟨?_, hbs⟩
    unfold Interpreter.check_id
    rw [if_pos (by omega)]

/-- Counterexample to C4 as stated: after the width upgrade to 2 bytes,
`CloneNode`'s `new_id = 1` (which fits in 1 byte) is encoded afterwards
as 8 bytes, not 2, with no intervening upgrade. -/
theorem c4_counterexample :
    ((Interpreter.new.CreateTextNode [] (some 300)).CloneNode none 1).msg =
      (Interpreter.new.CreateTextNode [] (some 300)).msg ++
        [Op.CloneNode, 0] ++ [1, 0, 0, 0, 0, 0, 0, 0] ∧
    (Interpreter.new.CreateTextNode [] (some 300)).id_size = 2 ∧
    ((Interpreter.new.CreateTextNode [] (some 300)).CloneNode none 1).id_size = 2 ∧
    byteSizeOf 1 = 1 := by
  refine ⟨by decide, by decide, by decide, by decide⟩

/-- Witness for C4 at a concrete starting state and text. -/
theorem c4_upgrade_scenario_witness :
    Interpreter.new.CreateTextNode [104] (some 300) =
      { msg := [Op.SetIdSize, 2, Op.CreateTextNode, 1, 44, 1] ++
          u16le 1 ++ [104],
        id_size := 2 } := by
  have h := c4_upgrade_scenario.1 Interpreter.new [104] rfl
  simpa using h

/-- Claim C5 (amended): every encoder operation passes each identifier
it references through the width negotiator before encoding, so after the
call the negotiated width is monotone and sufficient for each such
identifier, and identifiers are encoded at exactly the negotiated width
— except `CloneNode`'s `new_id`, which is never checked (the resulting
width is independent of it) and is appended as a fixed 8-byte
little-endian value.  `CloneNodeChildren`, by contrast, checks all its
`new_ids`. -/
theorem c5_validate_ids :
    (∀ (c : EncoderCall) (s : Interpreter), (∀ id ∈ checkedIds c, id < 2 ^ 64) →
      s.id_size ≤ (runCall c s).id_size ∧
      ∀ id ∈ checkedIds c, id < 256 ^ (runCall c s).id_size) ∧
    (∀ (s : Interpreter) (root : Option Nat) (nid : Nat),
      (s.CloneNode root nid).id_size = (s.CloneNode root 0).id_size ∧
      ∃ pre, (s.CloneNode root nid).msg = pre ++ toLeBytes8 nid ∧
        (toLeBytes8 nid).length = 8) ∧
    (∀ (s : Interpreter) (id : Nat), s.id_size ≤ 8 →
      ∃ bytes, (s.encode_id id).msg = s.msg ++ bytes ∧ bytes.length = s.id_size) := by
  refine ⟨?_, ?_, ?_⟩
  · intro c s h
    constructor
    · rw [runCall_id_size]
      exact id_size_le_processIds s (checkedIds c)
    · intro id hmem
      calc id < 256 ^ byteSizeOf id := lt_pow_byteSize id (h id hmem)
        _ ≤ 256 ^ (runCall c s).id_size := by
          rw [runCall_id_size]
          exact Nat.pow_le_pow_right (by norm_num)
            (byteSize_le_processIds s (checkedIds c) id hmem)
  · intro s root nid
    refine ⟨rfl, ⟨_, rfl, by simp [toLeBytes8]⟩⟩
  · intro s id h
    refine ⟨(toLeBytes8 id).take s.id_size, rfl, ?_⟩
    simp [List.length_take, toLeBytes8]
    omega

/-- Counterexample to C5 as stated: `CloneNode` neither validates nor
width-encodes its `new_id`: with `new_id = 300` (2 significant bytes) on
a fresh encoder, no `SetIdSize` control code is emitted, the width stays
1, and the id occupies 8 raw bytes. -/
theorem c5_counterexample :
    (Interpreter.new.CloneNode none 300).msg =
      [Op.CloneNode, 0, 44, 1, 0, 0, 0, 0, 0, 0] ∧
    (Interpreter.new.CloneNode none 300).id_size = 1 ∧
    byteSizeOf 300 = 2 := by
  refine ⟨by decide, by decide, by decide⟩

/-- Witness for C5 at concrete calls. -/
theorem c5_validate_ids_witness :
    (300 : Nat) <
      256 ^ (runCall (.cloneNodeChildren (some 300) [70000]) Interpreter.new).id_size ∧
    (Interpreter.new.CloneNode none 5).id_size = (Interpreter.new.CloneNode none 0).id_size :=
  ⟨(c5_validate_ids.1 (.cloneNodeChildren (some 300) [70000]) Interpreter.new (by decide)).2
      300 (by decide),
   (c5_validate_ids.2.1 Interpreter.new none 5).1⟩

/-- Claim C6 (amended): `encode_str` performs no length validation; for
strings of at most 65535 bytes it writes a 2-byte little-endian length
prefix equal to the string's byte length followed by the raw bytes with
no null terminator (longer strings wrap the prefix modulo 2^16 while
still appending every byte, see the counterexample). -/
theorem c6_encode_str_prefix (s : Interpreter) (str : List Nat) (h : str.length ≤ 65535) :
    (s.encode_str str).msg =
      s.msg ++ [str.length % 256, str.length / 256] ++ str := by
  unfold Interpreter.encode_str Interpreter.extend u16le
  have h1 : str.length % 65536 = str.length := Nat.mod_eq_of_lt (by omega)
  have h2 : str.length / 256 % 256 = str.length / 256 :=
    Nat.mod_eq_of_lt (by omega)
  simp [h1, h2, List.append_assoc]

/-- Counterexample to C6 as stated: a 65536-byte string is neither
rejected nor truncated: the prefix wraps to `[0, 0]` (65536 mod 2^16 =
0) yet all 65536 bytes are appended, silently corrupting the stream. -/
theorem c6_counterexample :
    (Interpreter.new.encode_str (List.replicate 65536 0)).msg =
      [0, 0] ++ List.replicate 65536 0 ∧
    (List.replicate 65536 0).length = 65536 ∧
    (65536 : Nat) % 65536 = 0 ∧
    (Interpreter.new.encode_str (List.replicate 65536 0)).msg.length = 65538 := by
  have hlen : (List.replicate 65536 (0 : Nat)).length = 65536 :=
    List.length_replicate 65536 0
  have hu : u16le 65536 = [0, 0] := by norm_num [u16le]
  have hmsg : (Interpreter.new.encode_str (List.replicate 65536 0)).msg =
      [0, 0] ++ List.replicate 65536 0 := by
    rw [encode_str_msg, hlen, hu]
    rfl
  refine ⟨hmsg, hlen, by norm_num, ?_⟩
  rw [hmsg, List.length_append, List.length_replicate]
  norm_num

/-- Witness for C6 at a concrete 2-byte string. -/
theorem c6_encode_str_prefix_witness :
    (Interpreter.new.encode_str [104, 105]).msg = [2, 0, 104, 105] := by
  have h := c6_encode_str_prefix Interpreter.new [104, 105] (by decide)
  simpa using h

/-- Claim C7: `flush` hands over the buffer terminated by the stop
opcode, then clears the buffer to empty while leaving the negotiated
identifier width unchanged; `should_flush` is false on a freshly flushed
encoder and true exactly when the buffered length exceeds 1024 bytes. -/
theorem c7_flush_behavior (s : Interpreter) :
    s.flush.1 = s.msg ++ [Op.Stop] ∧
    s.flush.2.msg = [] ∧
    s.flush.2.id_size = s.id_size ∧
    s.flush.2.should_flush = false ∧
    (s.should_flush = true ↔ 1024 < s.msg.length) := by
  refine ⟨rfl, rfl, rfl, rfl, ?_⟩
  simp [Interpreter.should_flush]

/-- Claim C8: whenever the fast path `to_str` returns `Some(s)` (two
empty static segments bracketing exactly one string-typed dynamic
value), `s` is byte-identical to the output of the general path
`to_bump_str` on the same arguments. -/
theorem c8_fast_path_agrees (a : DiffableArguments) (s : String) (h : a.to_str = some s) :
    a.to_bump_str = s := by
  obtain ⟨⟨addr, sv⟩, dv⟩ := a
  simp only [DiffableArguments.to_str] at h
  split at h
  next r => 
    cases h
    simp [DiffableArguments.to_bump_str, entryWrite]
  next => cases h

/-- Witness for C8 at a concrete argument set. -/
theorem c8_fast_path_agrees_witness :
    DiffableArguments.to_bump_str ⟨⟨3, ["", ""]⟩, [.str ⟨9, "world"⟩]⟩ = "world" :=
  c8_fast_path_agrees ⟨⟨3, ["", ""]⟩, [.str ⟨9, "world"⟩]⟩ "world" rfl

/-- Claim C9: two `DiffableArguments` (of equal dynamic length, the
well-definedness precondition of the comparison) compare equal iff their
static-segment arrays are the same interned array (address identity) and
their dynamic entries are pairwise equal; and for string-typed entries
the pointer-identity short-circuit never produces a different result
than content comparison alone, given the interning invariant that equal
addresses carry equal content. -/
theorem c9_equality_consistency :
    (∀ a b : DiffableArguments,
      a.dynamic_segments.length = b.dynamic_segments.length →
      (argsEq a b = some true ↔
        (a.static_segments.addr = b.static_segments.addr ∧
          ∀ i, i < a.dynamic_segments.length →
            entryEq (a.dynamic_segments.getD i (.bool false))
              (b.dynamic_segments.getD i (.bool false)) = true))) ∧
    (∀ s t : StrRef, (s.addr = t.addr → s.val = t.val) →
      entryEq (.str s) (.str t) = (s.val == t.val)) := by
  constructor
  · intro a b hlen
    unfold argsEq
    by_cases haddr : a.static_segments.addr = b.static_segments.addr
    · rw [if_pos haddr]
      rw [eqFrom_some_true_iff _ _ _
        (fun i hi => by have := List.mem_range.mp hi; omega)]
      constructor
      · intro h
        exact ⟨haddr, fun i hi => h i (List.mem_range.mpr hi)⟩
      · intro h i hi
        exact h.2 i (List.mem_range.mp hi)
    · rw [if_neg haddr]
      simp only [Option.some.injEq, Bool.false_eq_true, false_iff]
      intro hc
      exact haddr hc.1
  · intro s t h
    show (s.addr == t.addr || s.val == t.val) = (s.val == t.val)
    by_cases haddr : s.addr = t.addr
    · have hval : s.val = t.val := h haddr
      simp [haddr, hval]
    · simp [haddr]

/-- Witness for C9 at concrete argument sets and string entries. -/
theorem c9_equality_consistency_witness :
    argsEq ⟨⟨7, ["a", "b"]⟩, [.u64 3]⟩ ⟨⟨7, ["a", "b"]⟩, [.u64 3]⟩ = some true ∧
    entryEq (.str ⟨1, "x"⟩) (.str ⟨2, "x"⟩) = true :=
  ⟨(c9_equality_consistency.1 ⟨⟨7, ["a", "b"]⟩, [.u64 3]⟩ ⟨⟨7, ["a", "b"]⟩, [.u64 3]⟩ rfl).mpr
    ⟨rfl, by decide⟩,
   by
    rw [c9_equality_consistency.2 ⟨1, "x"⟩ ⟨2, "x"⟩ (fun h => by cases h)]
    decide⟩

/-- Claim C10: the equality comparison indexes the right-hand dynamic
array at every index of the left-hand one without a bounds check; under
the precondition that the right side is at least as long, the
out-of-bounds branch (`none` in this total embedding) is unreachable. -/
theorem c10_eq_no_oob (a b : DiffableArguments)
    (h : a.dynamic_segments.length ≤ b.dynamic_segments.length) :
    argsEq a b ≠ none := by
  unfold argsEq
  split
  · apply eqFrom_ne_none
    intro i hi
    have := List.mem_range.mp hi
    omega
  · simp

/-- Witness for C10 at concrete argument sets of lengths 1 and 2. -/
theorem c10_eq_no_oob_witness :
    argsEq ⟨⟨4, ["x", "y"]⟩, [.u64 1]⟩ ⟨⟨4, ["x", "y"]⟩, [.u64 2, .char 'q']⟩ ≠ none :=
  c10_eq_no_oob ⟨⟨4, ["x", "y"]⟩, [.u64 1]⟩ ⟨⟨4, ["x", "y"]⟩, [.u64 2, .char 'q']⟩
    (by decide)

/-- Witness for C2's universally quantified leading-minus conjunct at a
concrete negative input. -/
theorem c2_min_signed_byte_witness :
    (-5 : Int) < 0 ∧ (signedWrite 64 (-5)).head? = some '-' :=
  ⟨by decide, c2_min_signed_byte.2.2 (-5) (by decide)⟩
